import Mathlib

/-!
# Verification of the EvoMap invite-code fission state machine

Shallow embedding of the token-ledger and batch-scheduler logic of
`src/projects/evomap/register.py` (and the OTP polling contract of
`src/common/outlook_mail.py`), together with proofs about the spec's claims.

Modelling conventions:
* Python dicts are association lists with insert-or-replace semantics
  (`dictInsert` keeps the position of an existing key, appends a new key,
  exactly like CPython's insertion-ordered dicts).
* Timestamps (`used_at`, `timestamp`, `last_updated`) and the derived
  `statistics` block are not part of any claim and are omitted.
* The external collaborators (browser, mail, proxy pool) are oracles:
  the outcome of `register_one_account` is a value of its return type,
  the login-and-harvest helpers are lists of harvested codes, and the
  mailbox is a function from poll ticks to an optional OTP code.
* Python string truthiness (`if invite_code_used:`) is modelled as
  inequality with the empty string.
-/

/-- String constants mirroring the literals of `register.py`. -/
def vCurrent : String := "2.0"

def stCompleted : String := "completed"

def stFailed : String := "failed"

def stConsumed : String := "consumed"

def stReturned : String := "returned"

def stInvalid : String := "invalid"

def etInvalid : String := "invite_code_invalid"

def etEmailRegistered : String := "email_registered"

def etRateLimit : String := "rate_limit"

def etServerError : String := "server_error"

def etOther : String := "other"

def etUnknown : String := "unknown"

/-- One entry of `state["invite_codes_history"]`: `{used_by, status}`
(`used_at` timestamp omitted, no real time in the model). -/
structure HistoryEntry where
  used_by : String
  status : String
deriving DecidableEq, Repr

/-- One entry of `state["accounts"]`.  Keys that a given writer does not set
(`invite_codes_generated` and `codes_generation_complete` are only written by
`mark_account_completed`, `error` only by `mark_account_failed`) are `Option`s,
mirroring a Python dict with optional keys.  `timestamp` omitted. -/
structure AccountRecord where
  status : String
  password : String
  invite_code_used : String
  invite_codes_generated : Option (List String)
  codes_generation_complete : Option Bool
  error : Option String
deriving DecidableEq, Repr

/-- Association-list lookup, modelling Python `m.get(k)`. -/
def dictGet? {α : Type} (m : List (String × α)) (k : String) : Option α :=
  match m with
  | [] => none
  | (k0, v) :: rest => if k0 = k then some v else dictGet? rest k

/-- Association-list insert-or-replace, modelling Python `m[k] = v`
(existing key keeps its position; new key is appended). -/
def dictInsert {α : Type} (k : String) (v : α) (m : List (String × α)) :
    List (String × α) :=
  match m with
  | [] => [(k, v)]
  | (k0, v0) :: rest =>
    if k0 = k then (k, v) :: rest else (k0, v0) :: dictInsert k v rest

/-- The persisted ledger `state` of `register.py` (v2.0 format, plus the two
legacy lists kept by the migration branch of `load_state`). -/
structure RegState where
  version : String
  invite_pool : List String
  output_codes : List String
  accounts : List (String × AccountRecord)
  invite_codes_history : List (String × HistoryEntry)
  completed_emails : List String
  failed_emails : List String
deriving DecidableEq, Repr

/-- One parsed line of the email file (`load_emails`). -/
structure EmailAccount where
  email : String
  password : String
  client_id : String
  refresh_token : String
deriving DecidableEq, Repr

/-- `mark_account_completed` (register.py:162-188).  The statistics counter
update is omitted. -/
def mark_account_completed (s : RegState) (email password invite_code_used : String)
    (invite_codes_generated : List String) : RegState :=
  if s.version ≠ vCurrent then
    if email ∈ s.completed_emails then s
    else { s with completed_emails := s.completed_emails ++ [email] }
  else
    let record : AccountRecord :=
      { status := stCompleted
        password := password
        invite_code_used := invite_code_used
        invite_codes_generated := some invite_codes_generated
        codes_generation_complete := some (invite_codes_generated.length == 3)
        error := none }
    let s1 := { s with accounts := dictInsert email record s.accounts }
    let entry : HistoryEntry := { used_by := email, status := stConsumed }
    if invite_code_used ≠ "" then
      { s1 with invite_codes_history :=
          dictInsert invite_code_used entry s1.invite_codes_history }
    else s1

/-- `mark_account_failed` (register.py:191-214). -/
def mark_account_failed (s : RegState) (email password invite_code_used err : String) :
    RegState :=
  if s.version ≠ vCurrent then
    if email ∈ s.failed_emails then s
    else { s with failed_emails := s.failed_emails ++ [email] }
  else
    let record : AccountRecord :=
      { status := stFailed
        password := password
        invite_code_used := invite_code_used
        invite_codes_generated := none
        codes_generation_complete := none
        error := some err }
    let s1 := { s with accounts := dictInsert email record s.accounts }
    let entry : HistoryEntry := { used_by := email, status := stReturned }
    if invite_code_used ≠ "" ∧ invite_code_used ∉ s1.invite_pool then
      { s1 with
        invite_pool := s1.invite_pool ++ [invite_code_used]
        invite_codes_history :=
          dictInsert invite_code_used entry s1.invite_codes_history }
    else s1

/-- `is_account_processed` (register.py:217-227): only `completed` counts as
processed in the v2.0 format. -/
def is_account_processed (s : RegState) (email : String) : Bool :=
  if s.version ≠ vCurrent then
    s.completed_emails.contains email
  else
    match dictGet? s.accounts email with
    | none => false
    | some info => info.status == stCompleted

/-- The backlog builder of `run_batch` (register.py:988):
`remaining = [a for a in accounts if not is_account_processed(state, a["email"])]`. -/
def build_backlog (s : RegState) (accounts : List EmailAccount) : List EmailAccount :=
  accounts.filter (fun a => ! is_account_processed s a.email)

/-- The harvested-code distribution loop of `handle_invalid_invite_code`
(register.py:362-365): each code is appended to the invite pool only when it is
in neither pool, checked against the state as updated so far. -/
def add_codes_to_pool (codes : List String) (s : RegState) : RegState :=
  match codes with
  | [] => s
  | c :: rest =>
    if c ∉ s.invite_pool ∧ c ∉ s.output_codes then
      add_codes_to_pool rest { s with invite_pool := s.invite_pool ++ [c] }
    else
      add_codes_to_pool rest s

/-- The `output_codes`-exhausted tail of `handle_invalid_invite_code`
(register.py:337-377): look up the account that consumed the invalid code; if
it completed and a browser is available, log in and harvest
(`browserLogin = some codes` is the list returned by
`login_and_generate_codes`, which converts its own exceptions to `[]`);
report success iff the invite pool ends non-empty. -/
def handle_invalid_fallback (invalid_code : String) (browserLogin : Option (List String))
    (s : RegState) : Bool × RegState :=
  let used_by :=
    match dictGet? s.invite_codes_history invalid_code with
    | some entry => entry.used_by
    | none => ""
  if used_by = "" then (false, s)
  else
    let acctStatus :=
      match dictGet? s.accounts used_by with
      | some info => info.status
      | none => ""
    if acctStatus ≠ stCompleted then (false, s)
    else
      match browserLogin with
      | some codes =>
        if codes = [] then (false, s)
        else
          let s1 := add_codes_to_pool codes s
          (decide (0 < s1.invite_pool.length), s1)
      | none => (false, s)

/-- `handle_invalid_invite_code` (register.py:316-377): pop the head of
`output_codes`; if it is already in the invite pool, recurse on the popped
state (the self-recursion of register.py:335), otherwise append it to the
invite pool; on exhaustion fall through to `handle_invalid_fallback`. -/
def handle_invalid_invite_code (invalid_code : String)
    (browserLogin : Option (List String)) (s : RegState) : Bool × RegState :=
  match hout : s.output_codes with
  | new_code :: rest =>
    if new_code ∈ s.invite_pool then
      handle_invalid_invite_code invalid_code browserLogin { s with output_codes := rest }
    else
      (true, { s with invite_pool := s.invite_pool ++ [new_code], output_codes := rest })
  | [] => handle_invalid_fallback invalid_code browserLogin s
termination_by s.output_codes.length
decreasing_by simp [hout]

/-- Fuel-bounded restatement of `handle_invalid_invite_code`: the recursion
consumes one element of `output_codes` per step, so `output_codes.length`
units of fuel reproduce the function (proved below). -/
def handle_invalid_fuel (fuel : Nat) (invalid_code : String)
    (browserLogin : Option (List String)) (s : RegState) : Bool × RegState :=
  match fuel with
  | 0 => handle_invalid_fallback invalid_code browserLogin s
  | fuel + 1 =>
    match s.output_codes with
    | new_code :: rest =>
      if new_code ∈ s.invite_pool then
        handle_invalid_fuel fuel invalid_code browserLogin { s with output_codes := rest }
      else
        (true, { s with invite_pool := s.invite_pool ++ [new_code], output_codes := rest })
    | [] => handle_invalid_fallback invalid_code browserLogin s

/-- The harvested-code distribution loop of `handle_email_registered`
(register.py:426-433): a fresh code goes to the invite pool when the pool is
empty, to the output pool otherwise. -/
def add_codes_pool_or_output (codes : List String) (s : RegState) : RegState :=
  match codes with
  | [] => s
  | c :: rest =>
    if c ∉ s.invite_pool ∧ c ∉ s.output_codes then
      if s.invite_pool.length = 0 then
        add_codes_pool_or_output rest { s with invite_pool := s.invite_pool ++ [c] }
      else
        add_codes_pool_or_output rest { s with output_codes := s.output_codes ++ [c] }
    else
      add_codes_pool_or_output rest s

/-- `handle_email_registered` (register.py:402-442): push the in-flight invite
code back to the front of the invite pool unless it is already in that pool;
then try to log in and harvest (`loginCodes` is the list returned by
`login_and_generate_codes`, `[]` on login failure). -/
def handle_email_registered (email password invite_code : String)
    (loginCodes : List String) (s : RegState) : Bool × RegState :=
  let s1 :=
    if invite_code ∈ s.invite_pool then s
    else { s with invite_pool := invite_code :: s.invite_pool }
  if loginCodes = [] then (false, s1)
  else (true, add_codes_pool_or_output loginCodes s1)

/-- `state["invite_pool"].pop(0)` guarded by the emptiness check of
run_batch (register.py:1030-1034): FIFO removal of the head. -/
def pop_token (pool : List String) : Option (String × List String) :=
  match pool with
  | [] => none
  | t :: rest => some (t, rest)

/-- Oracles for the two login-and-harvest side calls a batch step can make. -/
structure StepOracles where
  invalidLogin : List String
  emailLogin : List String
deriving DecidableEq, Repr

/-- Whether the batch loop continues after a step or breaks out. -/
inductive StepOutcome where
  | halted (s : RegState)
  | continued (s : RegState)
deriving DecidableEq, Repr

/-- The ledger state carried out of a step, whether or not the loop broke. -/
def step_state : StepOutcome → RegState
  | .halted s => s
  | .continued s => s

/-- One iteration of the `run_batch` loop body (register.py:1029-1116),
from the pool-emptiness check through the ledger mutations.  `outcome` is the
`(success, new_codes, error_type)` triple returned by `register_one_account`;
proxy-pool bookkeeping and persistence have no ledger effect and are omitted. -/
def run_batch_step (acct : EmailAccount) (outcome : Bool × List String × Option String)
    (oracles : StepOracles) (s : RegState) : StepOutcome :=
  match pop_token s.invite_pool with
  | none => .halted s
  | some (invite_code, rest) =>
    let s0 := { s with invite_pool := rest }
    let success := outcome.1
    let new_codes := outcome.2.1
    let error_type := outcome.2.2
    if success = true ∧ new_codes ≠ [] then
      let s1 := mark_account_completed s0 acct.email acct.password invite_code new_codes
      let s2 :=
        if 3 ≤ new_codes.length then
          { s1 with
            invite_pool := s1.invite_pool ++ [new_codes.headD ""]
            output_codes := s1.output_codes ++ (new_codes.drop 1).take 2 }
        else if new_codes.length = 2 then
          { s1 with
            invite_pool := s1.invite_pool ++ [new_codes.headD ""]
            output_codes := s1.output_codes ++ [new_codes.getD 1 ""] }
        else if new_codes.length = 1 then
          { s1 with invite_pool := s1.invite_pool ++ [new_codes.headD ""] }
        else s1
      .continued s2
    else
      if error_type = some etInvalid then
        let r := handle_invalid_invite_code invite_code (some oracles.invalidLogin) s0
        if r.1 = true then
          .continued (mark_account_failed r.2 acct.email acct.password invite_code
            (error_type.getD etUnknown))
        else
          .halted r.2
      else if error_type = some etEmailRegistered then
        let r := handle_email_registered acct.email acct.password invite_code
          oracles.emailLogin s0
        .continued (mark_account_failed r.2 acct.email acct.password invite_code
          (error_type.getD etUnknown))
      else
        let s1 := { s0 with invite_pool := invite_code :: s0.invite_pool }
        .continued (mark_account_failed s1 acct.email acct.password invite_code
          (error_type.getD etUnknown))

/-- The `run_batch` loop (register.py:1029-1132) over a finite schedule of
attempts; a `halted` step breaks out of the loop. -/
def run_batch_loop :
    List (EmailAccount × (Bool × List String × Option String) × StepOracles) →
      RegState → RegState
  | [], s => s
  | (acct, outcome, oracles) :: rest, s =>
    match run_batch_step acct outcome oracles s with
    | .halted s1 => s1
    | .continued s1 => run_batch_loop rest s1

/-- Invariant T2 of the spec: no value occurs twice across the two pools. -/
def crossNoDup (s : RegState) : Prop := (s.invite_pool ++ s.output_codes).Nodup

/-- The conservation quantity of the spec (section 8): pool sizes plus the
number of history entries whose disposition is `consumed` or `invalid`. -/
def ledger_sum (s : RegState) : Nat :=
  s.invite_pool.length + s.output_codes.length +
    (s.invite_codes_history.filter
      (fun p => p.2.status == stConsumed || p.2.status == stInvalid)).length

/-- The exception taxonomy of a registration attempt
(register.py:60-77 and the generic `Exception`). -/
inductive AttemptExc where
  | inviteCodeInvalid
  | emailAlreadyRegistered
  | rateLimit
  | serverError
  | otherExc
deriving DecidableEq, Repr

/-- The `except` chain of `register_one_account` (register.py:770-794):
each exception class maps to its `error_type` string. -/
def classify_exception : AttemptExc → String
  | .inviteCodeInvalid => etInvalid
  | .emailAlreadyRegistered => etEmailRegistered
  | .rateLimit => etRateLimit
  | .serverError => etServerError
  | .otherExc => etOther

/-- What the external world does during one call of `register_one_account`:
the context creation (register.py:600) can raise, the `try` body
(register.py:601-768) can raise one of the classified exceptions, or the flow
completes with a list of harvested codes. -/
inductive AttemptBehavior where
  | contextCreationRaises
  | bodyRaises (e : AttemptExc)
  | completes (codes : List String)
deriving DecidableEq, Repr

/-- `register_one_account` (register.py:583-799) as a function of the world's
behavior.  `create_context` at register.py:600 sits before the `try:` of
register.py:601, so an exception there is not converted and propagates
(`Except.error`); exceptions inside the body are converted by the `except`
chain into the `(False, [], error_type)` triple; completion yields
`(True, codes, None)`. -/
def register_one_account :
    AttemptBehavior → Except Unit (Bool × List String × Option String)
  | .contextCreationRaises => .error ()
  | .bodyRaises e => .ok (false, [], some (classify_exception e))
  | .completes codes => .ok (true, codes, none)

/-- Per-round OTP wait budget in seconds (register.py:692/712 pass 30). -/
def OTP_ROUND_TIMEOUT : Nat := 30

/-- Poll interval in seconds (`DEFAULT_POLL_INTERVAL` in outlook_mail.py). -/
def OTP_POLL_INTERVAL_S : Nat := 3

/-- Iteration budget of one poll round: the `while time.time() - start < timeout`
loop of `_poll_imap` sleeps `poll_interval` seconds per iteration, so a round
runs at most `timeout / interval` iterations. -/
def otpRoundFuel : Nat := OTP_ROUND_TIMEOUT / OTP_POLL_INTERVAL_S

/-- The polling loop of `OutlookMailClient._poll_imap`
(outlook_mail.py:453-522), time abstracted into ticks of one poll interval:
`oracle tick` is the code the mailbox yields at that tick (`none` = no new
matching mail).  The loop returns the first code found and gives up when the
fuel (the timeout budget) is exhausted. -/
def poll_for_code (oracle : Nat → Option String) : Nat → Nat → Option String
  | 0, _ => none
  | fuel + 1, tick =>
    match oracle tick with
    | some c => some c
    | none => poll_for_code oracle fuel (tick + 1)

/-- Result of the two-round OTP wait: the code found, if any, and whether the
resend action between the rounds was triggered. -/
structure OtpPhaseResult where
  code : Option String
  resendTriggered : Bool
deriving DecidableEq, Repr

/-- The OTP wait of `register_one_account` (register.py:688-715): a first
30-second round; on failure the resend click and a second 30-second round. -/
def otp_phase (round1 round2 : Nat → Option String) : OtpPhaseResult :=
  match poll_for_code round1 otpRoundFuel 0 with
  | some c => { code := some c, resendTriggered := false }
  | none =>
    { code := poll_for_code round2 otpRoundFuel 0, resendTriggered := true }

/-- What the OTP wait contributes to the attempt: a code, or the generic
`Exception` of register.py:715 which the boundary classifies as `other`. -/
def otp_outcome (round1 round2 : Nat → Option String) : Except AttemptExc String :=
  match (otp_phase round1 round2).code with
  | some c => .ok c
  | none => .error .otherExc

/-! ## Concrete fixtures (the spec's scenario tokens and a test account) -/

/-- Scenario token of spec section 8. -/
def tokA : String := "AAAA1111"

/-- Scenario token of spec section 8. -/
def tokB : String := "BBBB2222"

/-- Scenario token of spec section 8. -/
def tokC : String := "CCCC3333"

/-- Scenario token of spec section 8. -/
def tokD : String := "DDDD4444"

/-- An extra generated token, beyond the three of the scenario. -/
def tokE : String := "EEEE5555"

/-- A fresh v2.0 state with the given pools and no accounts or history. -/
def mkState (pool out : List String) : RegState :=
  { version := vCurrent
    invite_pool := pool
    output_codes := out
    accounts := []
    invite_codes_history := []
    completed_emails := []
    failed_emails := [] }

/-- A concrete email account for the scenario runs. -/
def acct0 : EmailAccount :=
  { email := "user1@example.com"
    password := "pw1"
    client_id := "cid1"
    refresh_token := "rt1" }

/-- Login-harvest oracles that return no codes. -/
def oracles0 : StepOracles := { invalidLogin := [], emailLogin := [] }

/-- Shorthand for the commit of a successful attempt (register.py:1045-1066)
restated for a non-empty code list: the first generated code goes to the
invite pool, codes two and three (when present) to the output pool;
`run_batch_step_success` below proves the if/elif chain equal to it. -/
def success_commit (acct : EmailAccount) (t : String) (codes : List String)
    (s0 : RegState) : RegState :=
  let s1 := mark_account_completed s0 acct.email acct.password t codes
  { s1 with
    invite_pool := s1.invite_pool ++ [codes.headD ""]
    output_codes := s1.output_codes ++ (codes.drop 1).take 2 }

/-- A completed account record with arbitrary other fields, for scenario runs. -/
def completedInfo : AccountRecord :=
  { status := stCompleted
    password := "pw9"
    invite_code_used := tokA
    invite_codes_generated := some [tokB]
    codes_generation_complete := some false
    error := none }

/-- A state whose accounts map holds one completed record. -/
def stateC7 : RegState :=
  { mkState [] [] with accounts := [(acct0.email, completedInfo)] }

/-- A concrete six-digit OTP value for the polling scenarios. -/
def oneOtp : String := "123456"

/-! ## Association-list lemmas -/

theorem dictGet?_insert_self {α : Type} (k : String) (v : α) (m : List (String × α)) :
    dictGet? (dictInsert k v m) k = some v := by
  induction m with
  | nil => simp [dictInsert, dictGet?]
  | cons hd tl ih =>
    obtain ⟨k0, v0⟩ := hd
    by_cases h : k0 = k
    · subst h
      simp [dictInsert, dictGet?]
    · simp [dictInsert, dictGet?, h, ih]

theorem dictInsert_of_get_none {α : Type} (k : String) (v : α) (m : List (String × α))
    (h : dictGet? m k = none) : dictInsert k v m = m ++ [(k, v)] := by
  induction m with
  | nil => simp [dictInsert]
  | cons hd tl ih =>
    obtain ⟨k0, v0⟩ := hd
    by_cases hk : k0 = k
    · rw [dictGet?] at h
      simp [hk] at h
    · rw [dictGet?] at h
      simp only [hk, if_false] at h
      simp [dictInsert, hk, ih h]

/-! ## Unfolding equations for `handle_invalid_invite_code` -/

theorem handle_invalid_eq_nil (ic : String) (bl : Option (List String)) (s : RegState)
    (h : s.output_codes = []) :
    handle_invalid_invite_code ic bl s = handle_invalid_fallback ic bl s := by
  rw [handle_invalid_invite_code.eq_def]
  split <;> simp_all

theorem handle_invalid_eq_cons (ic : String) (bl : Option (List String)) (s : RegState)
    (c : String) (rest : List String) (h : s.output_codes = c :: rest) :
    handle_invalid_invite_code ic bl s =
      if c ∈ s.invite_pool then
        handle_invalid_invite_code ic bl { s with output_codes := rest }
      else
        (true, { s with invite_pool := s.invite_pool ++ [c], output_codes := rest }) := by
  rw [handle_invalid_invite_code.eq_def]
  split
  · rename_i c0 rest0 hout
    rw [h] at hout
    cases hout
    rfl
  · rename_i hout
    rw [h] at hout
    cases hout

theorem handle_invalid_fuel_spec :
    ∀ (fuel : Nat) (ic : String) (bl : Option (List String)) (s : RegState),
      s.output_codes.length ≤ fuel →
      handle_invalid_fuel fuel ic bl s = handle_invalid_invite_code ic bl s := by
  intro fuel
  induction fuel with
  | zero =>
    intro ic bl s h
    have h0 : s.output_codes = [] := List.length_eq_zero.mp (Nat.le_zero.mp h)
    rw [handle_invalid_fuel, handle_invalid_eq_nil ic bl s h0]
  | succ n ih =>
    intro ic bl s h
    rw [handle_invalid_fuel]
    cases hout : s.output_codes with
    | nil => rw [handle_invalid_eq_nil ic bl s hout]
    | cons c rest =>
      rw [handle_invalid_eq_cons ic bl s c rest hout]
      by_cases hc : c ∈ s.invite_pool
      · simp only [if_pos hc]
        refine ih ic bl _ ?_
        have hlen : s.output_codes.length = rest.length + 1 := by rw [hout]; rfl
        show rest.length ≤ n
        omega
      · simp only [if_neg hc]

theorem handle_invalid_eq_fuel (ic : String) (bl : Option (List String)) (s : RegState) :
    handle_invalid_invite_code ic bl s =
      handle_invalid_fuel s.output_codes.length ic bl s :=
  (handle_invalid_fuel_spec _ ic bl s le_rfl).symm

/-! ## Preservation of the cross-pool no-duplicate invariant (spec T2) -/

theorem add_codes_to_pool_output_eq :
    ∀ (codes : List String) (s : RegState),
      (add_codes_to_pool codes s).output_codes = s.output_codes := by
  intro codes
  induction codes with
  | nil => intro s; rfl
  | cons c cs ih =>
    intro s
    rw [add_codes_to_pool]
    split
    · rw [ih]
    · rw [ih]

theorem add_codes_to_pool_pool_mono :
    ∀ (codes : List String) (s : RegState) (x : String),
      x ∈ s.invite_pool → x ∈ (add_codes_to_pool codes s).invite_pool := by
  intro codes
  induction codes with
  | nil => intro s x hx; exact hx
  | cons c cs ih =>
    intro s x hx
    rw [add_codes_to_pool]
    split
    · exact ih _ x (by simp [hx])
    · exact ih _ x hx

theorem add_codes_to_pool_nodup :
    ∀ (codes : List String) (s : RegState),
      crossNoDup s → crossNoDup (add_codes_to_pool codes s) := by
  intro codes
  induction codes with
  | nil => intro s h; exact h
  | cons c cs ih =>
    intro s h
    rw [add_codes_to_pool]
    split
    · rename_i hc
      refine ih _ ?_
      show ((s.invite_pool ++ [c]) ++ s.output_codes).Nodup
      have e : (s.invite_pool ++ [c]) ++ s.output_codes =
          s.invite_pool ++ c :: s.output_codes := by simp
      rw [e, List.nodup_middle]
      exact List.nodup_cons.mpr ⟨by simp [hc.1, hc.2], h⟩
    · exact ih _ h

theorem add_codes_pool_or_output_pool_mono :
    ∀ (codes : List String) (s : RegState) (x : String),
      x ∈ s.invite_pool → x ∈ (add_codes_pool_or_output codes s).invite_pool := by
  intro codes
  induction codes with
  | nil => intro s x hx; exact hx
  | cons c cs ih =>
    intro s x hx
    rw [add_codes_pool_or_output]
    split
    · split
      · exact ih _ x (by simp [hx])
      · exact ih _ x hx
    · exact ih _ x hx

theorem add_codes_pool_or_output_nodup :
    ∀ (codes : List String) (s : RegState),
      crossNoDup s → crossNoDup (add_codes_pool_or_output codes s) := by
  intro codes
  induction codes with
  | nil => intro s h; exact h
  | cons c cs ih =>
    intro s h
    rw [add_codes_pool_or_output]
    split
    · rename_i hc
      split
      · refine ih _ ?_
        show ((s.invite_pool ++ [c]) ++ s.output_codes).Nodup
        have e : (s.invite_pool ++ [c]) ++ s.output_codes =
            s.invite_pool ++ c :: s.output_codes := by simp
        rw [e, List.nodup_middle]
        exact List.nodup_cons.mpr ⟨by simp [hc.1, hc.2], h⟩
      · refine ih _ ?_
        show (s.invite_pool ++ (s.output_codes ++ [c])).Nodup
        have e : s.invite_pool ++ (s.output_codes ++ [c]) =
            (s.invite_pool ++ s.output_codes) ++ c :: [] := by simp
        rw [e, List.nodup_middle]
        refine List.nodup_cons.mpr ⟨?_, by simpa using h⟩
        simp [hc.1, hc.2]
    · exact ih _ h

theorem handle_invalid_fallback_output_eq (ic : String) (bl : Option (List String))
    (s : RegState) :
    (handle_invalid_fallback ic bl s).2.output_codes = s.output_codes := by
  simp only [handle_invalid_fallback]
  split
  · rfl
  · split
    · rfl
    · split
      · split
        · rfl
        · exact add_codes_to_pool_output_eq _ _
      · rfl

theorem handle_invalid_fallback_nodup (ic : String) (bl : Option (List String))
    (s : RegState) (h : crossNoDup s) :
    crossNoDup (handle_invalid_fallback ic bl s).2 := by
  simp only [handle_invalid_fallback]
  split
  · exact h
  · split
    · exact h
    · split
      · split
        · exact h
        · exact add_codes_to_pool_nodup _ _ h
      · exact h

theorem handle_invalid_fuel_succ_nil (n : Nat) (ic : String) (bl : Option (List String))
    (s : RegState) (h : s.output_codes = []) :
    handle_invalid_fuel (n + 1) ic bl s = handle_invalid_fallback ic bl s := by
  rw [handle_invalid_fuel, h]

theorem handle_invalid_fuel_succ_cons (n : Nat) (ic : String) (bl : Option (List String))
    (s : RegState) (c : String) (rest : List String) (h : s.output_codes = c :: rest) :
    handle_invalid_fuel (n + 1) ic bl s =
      if c ∈ s.invite_pool then
        handle_invalid_fuel n ic bl { s with output_codes := rest }
      else
        (true, { s with invite_pool := s.invite_pool ++ [c], output_codes := rest }) := by
  rw [handle_invalid_fuel, h]

theorem handle_invalid_fuel_output_sub :
    ∀ (fuel : Nat) (ic : String) (bl : Option (List String)) (s : RegState) (x : String),
      x ∈ (handle_invalid_fuel fuel ic bl s).2.output_codes → x ∈ s.output_codes := by
  intro fuel
  induction fuel with
  | zero =>
    intro ic bl s x hx
    rw [handle_invalid_fuel] at hx
    rwa [handle_invalid_fallback_output_eq] at hx
  | succ n ih =>
    intro ic bl s x hx
    cases hout : s.output_codes with
    | nil =>
      rw [handle_invalid_fuel_succ_nil n ic bl s hout] at hx
      rwa [handle_invalid_fallback_output_eq, hout] at hx
    | cons c rest =>
      rw [handle_invalid_fuel_succ_cons n ic bl s c rest hout] at hx
      by_cases hc : c ∈ s.invite_pool
      · rw [if_pos hc] at hx
        have := ih ic bl _ x hx
        exact List.mem_cons_of_mem c this
      · rw [if_neg hc] at hx
        exact List.mem_cons_of_mem c hx

theorem handle_invalid_fuel_nodup :
    ∀ (fuel : Nat) (ic : String) (bl : Option (List String)) (s : RegState),
      crossNoDup s → crossNoDup (handle_invalid_fuel fuel ic bl s).2 := by
  intro fuel
  induction fuel with
  | zero =>
    intro ic bl s h
    rw [handle_invalid_fuel]
    exact handle_invalid_fallback_nodup ic bl s h
  | succ n ih =>
    intro ic bl s h
    cases hout : s.output_codes with
    | nil =>
      rw [handle_invalid_fuel_succ_nil n ic bl s hout]
      exact handle_invalid_fallback_nodup ic bl s h
    | cons c rest =>
      rw [handle_invalid_fuel_succ_cons n ic bl s c rest hout]
      have hsplit : (s.invite_pool ++ c :: rest).Nodup := by
        rw [crossNoDup, hout] at h
        exact h
      by_cases hc : c ∈ s.invite_pool
      · rw [if_pos hc]
        refine ih ic bl _ ?_
        show (s.invite_pool ++ rest).Nodup
        exact hsplit.sublist ((List.sublist_cons_self c rest).append_left s.invite_pool)
      · rw [if_neg hc]
        show ((s.invite_pool ++ [c]) ++ rest).Nodup
        have e : (s.invite_pool ++ [c]) ++ rest = s.invite_pool ++ c :: rest := by simp
        rw [e]
        exact hsplit

theorem handle_invalid_output_sub (ic : String) (bl : Option (List String))
    (s : RegState) (x : String)
    (hx : x ∈ (handle_invalid_invite_code ic bl s).2.output_codes) :
    x ∈ s.output_codes := by
  rw [handle_invalid_eq_fuel] at hx
  exact handle_invalid_fuel_output_sub _ ic bl s x hx

theorem handle_invalid_nodup (ic : String) (bl : Option (List String))
    (s : RegState) (h : crossNoDup s) :
    crossNoDup (handle_invalid_invite_code ic bl s).2 := by
  rw [handle_invalid_eq_fuel]
  exact handle_invalid_fuel_nodup _ ic bl s h

/-! ## Lemmas about the account markers -/

theorem mark_account_failed_output_eq (s : RegState) (e p c err : String) :
    (mark_account_failed s e p c err).output_codes = s.output_codes := by
  simp only [mark_account_failed]
  split
  · split <;> rfl
  · split <;> rfl

theorem mark_account_failed_pool_of_mem (s : RegState) (e p c err : String)
    (hm : c ∈ s.invite_pool) :
    (mark_account_failed s e p c err).invite_pool = s.invite_pool := by
  simp only [mark_account_failed]
  split
  · split <;> rfl
  · split
    · rename_i hguard
      exact absurd hm hguard.2
    · rfl

theorem mark_account_failed_history_of_mem (s : RegState) (e p c err : String)
    (hm : c ∈ s.invite_pool) :
    (mark_account_failed s e p c err).invite_codes_history = s.invite_codes_history := by
  simp only [mark_account_failed]
  split
  · split <;> rfl
  · split
    · rename_i hguard
      exact absurd hm hguard.2
    · rfl

theorem mark_account_failed_accounts_v2 (s : RegState) (e p c err : String)
    (hv : s.version = vCurrent) :
    (mark_account_failed s e p c err).accounts =
      dictInsert e
        { status := stFailed
          password := p
          invite_code_used := c
          invite_codes_generated := none
          codes_generation_complete := none
          error := some err } s.accounts := by
  simp only [mark_account_failed, hv]
  split
  · rename_i hne
    exact absurd rfl hne
  · split <;> rfl

theorem mark_account_failed_nodup (s : RegState) (e p c err : String)
    (h : crossNoDup s) (hc : c ∉ s.output_codes ∨ c ∈ s.invite_pool) :
    crossNoDup (mark_account_failed s e p c err) := by
  simp only [mark_account_failed]
  split
  · split <;> exact h
  · split
    · rename_i hguard
      have hco : c ∉ s.output_codes := by
        rcases hc with hco | hcp
        · exact hco
        · exact absurd hcp hguard.2
      show ((s.invite_pool ++ [c]) ++ s.output_codes).Nodup
      have e1 : (s.invite_pool ++ [c]) ++ s.output_codes =
          s.invite_pool ++ c :: s.output_codes := by simp
      rw [e1, List.nodup_middle]
      exact List.nodup_cons.mpr ⟨by simp [hguard.2, hco], h⟩
    · exact h

/-! ## Lemmas about `handle_email_registered` -/

theorem handle_email_registered_pool_mem (e p ic : String) (lc : List String)
    (s : RegState) :
    ic ∈ (handle_email_registered e p ic lc s).2.invite_pool := by
  simp only [handle_email_registered]
  split
  · by_cases hm : ic ∈ s.invite_pool
    · simp only [if_pos hm]
      exact hm
    · simp only [if_neg hm]
      exact List.mem_cons_self ic s.invite_pool
  · by_cases hm : ic ∈ s.invite_pool
    · simp only [if_pos hm]
      exact add_codes_pool_or_output_pool_mono _ _ _ hm
    · simp only [if_neg hm]
      exact add_codes_pool_or_output_pool_mono _ _ _ (List.mem_cons_self ic s.invite_pool)

theorem handle_email_registered_nodup (e p ic : String) (lc : List String)
    (s : RegState) (h : crossNoDup s) (hic : ic ∉ s.output_codes) :
    crossNoDup (handle_email_registered e p ic lc s).2 := by
  have h1 : crossNoDup (if ic ∈ s.invite_pool then s
      else { s with invite_pool := ic :: s.invite_pool }) := by
    by_cases hm : ic ∈ s.invite_pool
    · simpa [hm] using h
    · simp only [if_neg hm]
      show (ic :: s.invite_pool ++ s.output_codes).Nodup
      exact List.nodup_cons.mpr ⟨by simp [hm, hic], h⟩
  simp only [handle_email_registered]
  split
  · exact h1
  · exact add_codes_pool_or_output_nodup _ _ h1

theorem add_codes_pool_or_output_pool_of_ne_nil :
    ∀ (codes : List String) (s : RegState), s.invite_pool ≠ [] →
      (add_codes_pool_or_output codes s).invite_pool = s.invite_pool := by
  intro codes
  induction codes with
  | nil => intro s h; rfl
  | cons c cs ih =>
    intro s h
    rw [add_codes_pool_or_output]
    split
    · split
      · rename_i hlen
        exact absurd (List.length_eq_zero.mp hlen) h
      · exact ih _ h
    · exact ih _ h

theorem add_codes_pool_or_output_version_eq :
    ∀ (codes : List String) (s : RegState),
      (add_codes_pool_or_output codes s).version = s.version := by
  intro codes
  induction codes with
  | nil => intro s; rfl
  | cons c cs ih =>
    intro s
    rw [add_codes_pool_or_output]
    split
    · split
      · rw [ih]
      · rw [ih]
    · rw [ih]

theorem handle_email_registered_pool_eq (e p ic : String) (lc : List String)
    (s : RegState) :
    (handle_email_registered e p ic lc s).2.invite_pool =
      if ic ∈ s.invite_pool then s.invite_pool else ic :: s.invite_pool := by
  simp only [handle_email_registered]
  by_cases hm : ic ∈ s.invite_pool
  · simp only [if_pos hm]
    split
    · rfl
    · exact add_codes_pool_or_output_pool_of_ne_nil _ _ (List.ne_nil_of_mem hm)
  · simp only [if_neg hm]
    split
    · rfl
    · exact add_codes_pool_or_output_pool_of_ne_nil _ _
        (List.cons_ne_nil ic s.invite_pool)

theorem handle_email_registered_version_eq (e p ic : String) (lc : List String)
    (s : RegState) :
    (handle_email_registered e p ic lc s).2.version = s.version := by
  simp only [handle_email_registered]
  by_cases hm : ic ∈ s.invite_pool
  · simp only [if_pos hm]
    split
    · rfl
    · rw [add_codes_pool_or_output_version_eq]
  · simp only [if_neg hm]
    split
    · rfl
    · rw [add_codes_pool_or_output_version_eq]

/-! ## Branch equations for one batch-loop iteration -/

theorem run_batch_step_return (acct : EmailAccount) (oc : List String) (et : Option String)
    (oracles : StepOracles) (s : RegState) (t : String) (rest : List String)
    (hp : s.invite_pool = t :: rest)
    (h1 : et ≠ some etInvalid) (h2 : et ≠ some etEmailRegistered) :
    run_batch_step acct (false, oc, et) oracles s =
      .continued (mark_account_failed { s with invite_pool := t :: rest }
        acct.email acct.password t (et.getD etUnknown)) := by
  simp [run_batch_step, pop_token, hp, h1, h2]

theorem run_batch_step_invalid (acct : EmailAccount) (oc : List String)
    (oracles : StepOracles) (s : RegState) (t : String) (rest : List String)
    (hp : s.invite_pool = t :: rest) :
    run_batch_step acct (false, oc, some etInvalid) oracles s =
      (if (handle_invalid_invite_code t (some oracles.invalidLogin)
            { s with invite_pool := rest }).1 = true then
        .continued (mark_account_failed
          (handle_invalid_invite_code t (some oracles.invalidLogin)
            { s with invite_pool := rest }).2
          acct.email acct.password t etInvalid)
      else
        .halted (handle_invalid_invite_code t (some oracles.invalidLogin)
          { s with invite_pool := rest }).2) := by
  simp [run_batch_step, pop_token, hp]

theorem run_batch_step_email (acct : EmailAccount) (oc : List String)
    (oracles : StepOracles) (s : RegState) (t : String) (rest : List String)
    (hp : s.invite_pool = t :: rest) :
    run_batch_step acct (false, oc, some etEmailRegistered) oracles s =
      .continued (mark_account_failed
        (handle_email_registered acct.email acct.password t oracles.emailLogin
          { s with invite_pool := rest }).2
        acct.email acct.password t etEmailRegistered) := by
  have hne : (etEmailRegistered == etInvalid) = false := by decide
  simp [run_batch_step, pop_token, hp, etEmailRegistered, etInvalid]

theorem run_batch_step_success (acct : EmailAccount) (codes : List String)
    (et : Option String) (oracles : StepOracles) (s : RegState) (t : String)
    (rest : List String) (hp : s.invite_pool = t :: rest) (hc : codes ≠ []) :
    run_batch_step acct (true, codes, et) oracles s =
      .continued (success_commit acct t codes { s with invite_pool := rest }) := by
  rcases codes with _ | ⟨c0, _ | ⟨c1, _ | ⟨c2, cs⟩⟩⟩
  · exact absurd rfl hc
  · simp [run_batch_step, pop_token, hp, success_commit]
  · simp [run_batch_step, pop_token, hp, success_commit]
  · have h3 : 3 ≤ (c0 :: c1 :: c2 :: cs).length := by simp
    simp [run_batch_step, pop_token, hp, success_commit, h3]

theorem mark_account_completed_v2 (s : RegState) (e p c : String) (codes : List String)
    (hv : s.version = vCurrent) (hne : c ≠ "") :
    mark_account_completed s e p c codes =
      { s with
        accounts := dictInsert e
          { status := stCompleted
            password := p
            invite_code_used := c
            invite_codes_generated := some codes
            codes_generation_complete := some (codes.length == 3)
            error := none } s.accounts
        invite_codes_history :=
          dictInsert c { used_by := e, status := stConsumed } s.invite_codes_history } := by
  simp [mark_account_completed, hv, hne]

theorem run_batch_step_invalid_break (acct : EmailAccount) (oc : List String)
    (oracles : StepOracles) (s : RegState) (t : String)
    (hp : s.invite_pool = [t]) (ho : s.output_codes = [])
    (hh : dictGet? s.invite_codes_history t = none) :
    run_batch_step acct (false, oc, some etInvalid) oracles s =
      .halted { s with invite_pool := [] } := by
  rw [run_batch_step_invalid acct oc oracles s t [] hp]
  have ho2 : ({ s with invite_pool := ([] : List String) } : RegState).output_codes = [] := ho
  have hfb : handle_invalid_invite_code t (some oracles.invalidLogin)
      { s with invite_pool := ([] : List String) } =
      (false, { s with invite_pool := ([] : List String) }) := by
    rw [handle_invalid_eq_nil _ _ _ ho2]
    simp [handle_invalid_fallback, hh]
  rw [hfb]
  simp

/-! ## The claims -/

/-- C6: `pop_token` removes and returns the head (the oldest element) of the
replenishment pool, in FIFO order; on an empty pool the pop fails (`none`),
the step halts with the whole ledger state unchanged (in particular no account
record is mutated), and the batch loop stops immediately. -/
theorem spec_c6 :
    (pop_token [] = none) ∧
    (∀ (t : String) (rest : List String), pop_token (t :: rest) = some (t, rest)) ∧
    (∀ (acct : EmailAccount) (outcome : Bool × List String × Option String)
        (oracles : StepOracles) (s : RegState), s.invite_pool = [] →
        run_batch_step acct outcome oracles s = .halted s) ∧
    (∀ (schedule : List (EmailAccount × (Bool × List String × Option String) × StepOracles))
        (s : RegState), s.invite_pool = [] → run_batch_loop schedule s = s) := by
  have hstep : ∀ (acct : EmailAccount) (outcome : Bool × List String × Option String)
      (oracles : StepOracles) (s : RegState), s.invite_pool = [] →
      run_batch_step acct outcome oracles s = .halted s := by
    intro acct outcome oracles s h
    simp [run_batch_step, pop_token, h]
  refine ⟨rfl, fun t rest => rfl, hstep, ?_⟩
  intro schedule s h
  cases schedule with
  | nil => rfl
  | cons item rest =>
    obtain ⟨acct, outcome, oracles⟩ := item
    rw [run_batch_loop, hstep acct outcome oracles s h]

/-- C6 witness: on a concrete empty-pool state the step halts unchanged. -/
theorem spec_c6_witness :
    run_batch_step acct0 (true, [tokB], none) oracles0 (mkState [] []) =
      .halted (mkState [] []) :=
  spec_c6.2.2.1 acct0 (true, [tokB], none) oracles0 (mkState [] []) rfl

/-- C7: in the v2.0 state format, an account whose record has status
`completed` is processed (hence excluded from the backlog) regardless of every
other field; an account with a `failed` record, or with no record at all, is
not processed (hence included); and membership in the built backlog is exactly
membership in the input list plus not being processed. -/
theorem spec_c7 :
    (∀ (s : RegState) (email : String) (info : AccountRecord),
        s.version = vCurrent → dictGet? s.accounts email = some info →
        info.status = stCompleted → is_account_processed s email = true) ∧
    (∀ (s : RegState) (email : String) (info : AccountRecord),
        s.version = vCurrent → dictGet? s.accounts email = some info →
        info.status = stFailed → is_account_processed s email = false) ∧
    (∀ (s : RegState) (email : String),
        s.version = vCurrent → dictGet? s.accounts email = none →
        is_account_processed s email = false) ∧
    (∀ (s : RegState) (accounts : List EmailAccount) (a : EmailAccount),
        a ∈ build_backlog s accounts ↔
          (a ∈ accounts ∧ is_account_processed s a.email = false)) := by
  refine ⟨?_, ?_, ?_, ?_⟩
  · intro s email info hv hg hs
    simp [is_account_processed, hv, hg, hs]
  · intro s email info hv hg hs
    have hne : (stFailed == stCompleted) = false := by decide
    simp [is_account_processed, hv, hg, hs, hne]
  · intro s email hv hg
    simp [is_account_processed, hv, hg]
  · intro s accounts a
    simp [build_backlog, List.mem_filter]

/-- C7 witness: a concrete completed record is excluded from the backlog. -/
theorem spec_c7_witness :
    is_account_processed stateC7 acct0.email = true :=
  spec_c7.1 stateC7 acct0.email completedInfo rfl rfl rfl

/-- C10: `handle_invalid_invite_code` always terminates, with recursion depth
bounded by the length of `output_codes` at entry: the fuel-indexed restatement
with exactly `output_codes.length` units of fuel (one per popped element)
reproduces the function, and on an exhausted output-codes list the function
returns the boolean-producing fallback without recursing further. -/
theorem spec_c10 :
    (∀ (fuel : Nat) (ic : String) (bl : Option (List String)) (s : RegState),
        s.output_codes.length ≤ fuel →
        handle_invalid_fuel fuel ic bl s = handle_invalid_invite_code ic bl s) ∧
    (∀ (ic : String) (bl : Option (List String)) (s : RegState),
        s.output_codes = [] →
        handle_invalid_invite_code ic bl s = handle_invalid_fallback ic bl s) :=
  ⟨handle_invalid_fuel_spec, handle_invalid_eq_nil⟩

/-- C10 witness: on a concrete two-element output list, fuel 2 suffices. -/
theorem spec_c10_witness :
    handle_invalid_fuel 2 tokA (some []) (mkState [tokB] [tokB, tokC]) =
      handle_invalid_invite_code tokA (some []) (mkState [tokB] [tokB, tokC]) :=
  spec_c10.1 2 tokA (some []) (mkState [tokB] [tokB, tokC]) (by decide)

/-- C8 counterexample: `create_context(browser)` at register.py:600 sits before
the `try:` of register.py:601, so an exception raised there propagates out of
`register_one_account` instead of being converted to a category. -/
theorem spec_c8_counterexample :
    register_one_account AttemptBehavior.contextCreationRaises = Except.error () := rfl

/-- C8 (amended): every exception raised inside the attempt body — after the
browser context has been created — is caught at the orchestrator boundary and
converted to exactly one category of the closed set; only a failure of the
context creation itself escapes. -/
theorem spec_c8 (b : AttemptBehavior) (hb : b ≠ AttemptBehavior.contextCreationRaises) :
    ∃ succ codes et, register_one_account b = .ok (succ, codes, et) ∧
      ((succ = true ∧ et = none) ∨
       (succ = false ∧ codes = [] ∧
         (et = some etInvalid ∨ et = some etEmailRegistered ∨ et = some etRateLimit ∨
          et = some etServerError ∨ et = some etOther))) := by
  cases b with
  | contextCreationRaises => exact absurd rfl hb
  | bodyRaises e =>
    refine ⟨false, [], some (classify_exception e), rfl, Or.inr ⟨rfl, rfl, ?_⟩⟩
    cases e
    · exact Or.inl rfl
    · exact Or.inr (Or.inl rfl)
    · exact Or.inr (Or.inr (Or.inl rfl))
    · exact Or.inr (Or.inr (Or.inr (Or.inl rfl)))
    · exact Or.inr (Or.inr (Or.inr (Or.inr rfl)))
  | completes codes => exact ⟨true, codes, none, rfl, Or.inl ⟨rfl, rfl⟩⟩

/-- C8 witness: a rate-limit exception in the body is classified, not raised. -/
theorem spec_c8_witness :
    ∃ succ codes et,
      register_one_account (AttemptBehavior.bodyRaises AttemptExc.rateLimit) =
        .ok (succ, codes, et) ∧
      ((succ = true ∧ et = none) ∨
       (succ = false ∧ codes = [] ∧
         (et = some etInvalid ∨ et = some etEmailRegistered ∨ et = some etRateLimit ∨
          et = some etServerError ∨ et = some etOther))) :=
  spec_c8 (AttemptBehavior.bodyRaises AttemptExc.rateLimit) (by decide)

/-- C9: the OTP wait is a bounded two-round poll.  The resend action fires
exactly when the first 30-second round (10 polls of 3 seconds) finds nothing;
the wait fails exactly when both rounds find nothing, in which case the raised
timeout exception is classified `other`; and any code the poll returns was
produced by the mailbox oracle within the fuel budget — never an unbounded
wait. -/
theorem spec_c9 :
    (∀ r1 r2, (otp_phase r1 r2).resendTriggered = true ↔
        poll_for_code r1 otpRoundFuel 0 = none) ∧
    (∀ r1 r2, (otp_phase r1 r2).code = none ↔
        (poll_for_code r1 otpRoundFuel 0 = none ∧ poll_for_code r2 otpRoundFuel 0 = none)) ∧
    (∀ r1 r2, (otp_phase r1 r2).code = none → otp_outcome r1 r2 = .error .otherExc) ∧
    (register_one_account (.bodyRaises .otherExc) = .ok (false, [], some etOther)) ∧
    (∀ (oracle : Nat → Option String) (fuel tick : Nat) (c : String),
        poll_for_code oracle fuel tick = some c →
        ∃ i, i < fuel ∧ oracle (tick + i) = some c) ∧
    otpRoundFuel = 10 := by
  have hbound : ∀ (oracle : Nat → Option String) (fuel tick : Nat) (c : String),
      poll_for_code oracle fuel tick = some c →
      ∃ i, i < fuel ∧ oracle (tick + i) = some c := by
    intro oracle fuel
    induction fuel with
    | zero =>
      intro tick c h
      rw [poll_for_code] at h
      cases h
    | succ n ih =>
      intro tick c h
      rw [poll_for_code] at h
      cases ho : oracle tick with
      | some c0 =>
        rw [ho] at h
        cases h
        exact ⟨0, Nat.succ_pos n, by simpa using ho⟩
      | none =>
        rw [ho] at h
        obtain ⟨i, hi, hoi⟩ := ih (tick + 1) c h
        exact ⟨i + 1, Nat.succ_lt_succ hi, by rwa [Nat.add_assoc, Nat.add_comm 1 i] at hoi⟩
  refine ⟨?_, ?_, ?_, rfl, hbound, rfl⟩
  · intro r1 r2
    rw [otp_phase]
    cases hpoll : poll_for_code r1 otpRoundFuel 0 with
    | some c => simp [hpoll]
    | none => simp [hpoll]
  · intro r1 r2
    rw [otp_phase]
    cases hpoll : poll_for_code r1 otpRoundFuel 0 with
    | some c => simp [hpoll]
    | none => simp [hpoll]
  · intro r1 r2 h
    rw [otp_outcome, h]

/-- C9 witness: with a silent mailbox the wait fails and classifies `other`;
with a mailbox answering at tick 2, the code is found within the budget. -/
theorem spec_c9_witness :
    otp_outcome (fun _ => none) (fun _ => none) = .error .otherExc ∧
    (∃ i, i < 3 ∧ (fun t => if t = 2 then some oneOtp else none) (0 + i) = some oneOtp) :=
  ⟨spec_c9.2.2.1 (fun _ => none) (fun _ => none) rfl,
   spec_c9.2.2.2.2.1 (fun t => if t = 2 then some oneOtp else none) 3 0 oneOtp rfl⟩

/-- C1 counterexample: starting from replenishment pool `["AAAA1111"]` with
empty output pool, history and accounts, an `invite_code_invalid` attempt ends
with the pool empty but with NO history entry for the token (in particular not
one with disposition `invalid` — no code path ever writes an `invalid`
disposition) and NO account record at all: the loop breaks before
`mark_account_failed` runs. -/
theorem spec_c1_counterexample :
    run_batch_step acct0 (false, [], some etInvalid) oracles0 (mkState [tokA] []) =
      .halted (mkState [] []) ∧
    dictGet? (mkState [] []).invite_codes_history tokA = none ∧
    dictGet? (mkState [] []).accounts acct0.email = none := by
  refine ⟨?_, rfl, rfl⟩
  exact run_batch_step_invalid_break acct0 [] oracles0 (mkState [tokA] []) tokA rfl rfl rfl

/-- C1 (amended): when the sole pooled token is classified
`invite_code_invalid` and no replacement can be sourced (output pool empty, no
history entry for the token), the token is indeed gone from the replenishment
pool — but the batch merely halts: no history entry (of any disposition) is
written for the token and the accounts map is left untouched, because the
`break` skips `mark_account_failed`. -/
theorem spec_c1 (acct : EmailAccount) (oracles : StepOracles) (s : RegState) (t : String)
    (hp : s.invite_pool = [t]) (ho : s.output_codes = [])
    (hh : dictGet? s.invite_codes_history t = none) :
    run_batch_step acct (false, [], some etInvalid) oracles s =
      .halted { s with invite_pool := [] } ∧
    dictGet? ({ s with invite_pool := ([] : List String) }).invite_codes_history t = none ∧
    ({ s with invite_pool := ([] : List String) }).accounts = s.accounts :=
  ⟨run_batch_step_invalid_break acct [] oracles s t hp ho hh, hh, rfl⟩

/-- C1 witness: the amended statement at the scenario input. -/
theorem spec_c1_witness :
    run_batch_step acct0 (false, [], some etInvalid) oracles0 (mkState [tokA] []) =
      .halted { mkState [tokA] [] with invite_pool := [] } ∧
    dictGet? ({ mkState [tokA] [] with
      invite_pool := ([] : List String) }).invite_codes_history tokA = none ∧
    ({ mkState [tokA] [] with invite_pool := ([] : List String) }).accounts =
      (mkState [tokA] []).accounts :=
  spec_c1 acct0 oracles0 (mkState [tokA] []) tokA rfl rfl rfl

/-- C2 counterexample: on a success with FOUR generated codes, only the second
and third reach the output pool — the fourth is in neither pool (it survives
only inside the account record), so "the remaining generated codes" do not all
go to the output pool. -/
theorem spec_c2_counterexample :
    (step_state (run_batch_step acct0 (true, [tokB, tokC, tokD, tokE], none) oracles0
      (mkState [tokA] []))).output_codes = [tokC, tokD] ∧
    tokE ∉ (step_state (run_batch_step acct0 (true, [tokB, tokC, tokD, tokE], none) oracles0
      (mkState [tokA] []))).output_codes ∧
    tokE ∉ (step_state (run_batch_step acct0 (true, [tokB, tokC, tokD, tokE], none) oracles0
      (mkState [tokA] []))).invite_pool := by
  exact ⟨by decide, by decide, by decide⟩

/-- C2 (amended): on a successful attempt with generated codes `[C1, C2, ...]`
the commit marks the account completed, records the consumed token in history
with disposition `consumed`, appends `C1` to the replenishment pool, and puts
the remaining generated codes — truncated to at most the second and third —
into the output pool; codes past the third are recorded only in the account
record.  (With exactly three codes this is the spec's scenario.) -/
theorem spec_c2 (acct : EmailAccount) (codes : List String) (et : Option String)
    (oracles : StepOracles) (s : RegState) (t : String) (rest : List String)
    (hv : s.version = vCurrent) (hp : s.invite_pool = t :: rest) (ht : t ≠ "")
    (hc : codes ≠ []) :
    ∃ s2, run_batch_step acct (true, codes, et) oracles s = .continued s2 ∧
      dictGet? s2.accounts acct.email = some
        { status := stCompleted
          password := acct.password
          invite_code_used := t
          invite_codes_generated := some codes
          codes_generation_complete := some (codes.length == 3)
          error := none } ∧
      dictGet? s2.invite_codes_history t =
        some { used_by := acct.email, status := stConsumed } ∧
      s2.invite_pool = rest ++ [codes.headD ""] ∧
      s2.output_codes = s.output_codes ++ (codes.drop 1).take 2 := by
  have hv2 : ({ s with invite_pool := rest } : RegState).version = vCurrent := hv
  refine ⟨success_commit acct t codes { s with invite_pool := rest },
    run_batch_step_success acct codes et oracles s t rest hp hc, ?_, ?_, ?_, ?_⟩
  · simp only [success_commit,
      mark_account_completed_v2 { s with invite_pool := rest }
        acct.email acct.password t codes hv2 ht]
    exact dictGet?_insert_self _ _ _
  · simp only [success_commit,
      mark_account_completed_v2 { s with invite_pool := rest }
        acct.email acct.password t codes hv2 ht]
    exact dictGet?_insert_self _ _ _
  · simp only [success_commit,
      mark_account_completed_v2 { s with invite_pool := rest }
        acct.email acct.password t codes hv2 ht]
  · simp only [success_commit,
      mark_account_completed_v2 { s with invite_pool := rest }
        acct.email acct.password t codes hv2 ht]

/-- C2 witness: the spec's three-code scenario discharges the hypotheses. -/
theorem spec_c2_witness :
    ∃ s2, run_batch_step acct0 (true, [tokB, tokC, tokD], none) oracles0
        (mkState [tokA] []) = .continued s2 ∧
      dictGet? s2.accounts acct0.email = some
        { status := stCompleted
          password := acct0.password
          invite_code_used := tokA
          invite_codes_generated := some [tokB, tokC, tokD]
          codes_generation_complete := some ([tokB, tokC, tokD].length == 3)
          error := none } ∧
      dictGet? s2.invite_codes_history tokA =
        some { used_by := acct0.email, status := stConsumed } ∧
      s2.invite_pool = [] ++ [[tokB, tokC, tokD].headD ""] ∧
      s2.output_codes = (mkState [tokA] []).output_codes ++
        ([tokB, tokC, tokD].drop 1).take 2 :=
  spec_c2 acct0 [tokB, tokC, tokD] none oracles0 (mkState [tokA] []) tokA []
    rfl rfl (by decide) (by decide)

/-- C5 counterexample: with the popped token already present in the output
pool, a rate-limited attempt still re-inserts it at the front of the
replenishment pool — the "only if not already present anywhere" guard does not
exist (the front insertion of register.py:1104 is unconditional). -/
theorem spec_c5_counterexample :
    tokA ∈ (mkState [tokA] [tokA]).output_codes ∧
    (step_state (run_batch_step acct0 (false, [], some etRateLimit) oracles0
      (mkState [tokA] [tokA]))).invite_pool = [tokA] ∧
    tokA ∈ (step_state (run_batch_step acct0 (false, [], some etRateLimit) oracles0
      (mkState [tokA] [tokA]))).output_codes := by
  exact ⟨by decide, by decide, by decide⟩

/-- C5 (amended): for `rate_limited`, `server_error` and `other_error` the
consumed token is re-inserted at the front of the replenishment pool
unconditionally (the guarded append inside `mark_account_failed` then sees it
present and does nothing); for `email_already_registered` it is inserted at
the front IF AND ONLY IF it is not already in the replenishment pool — when
it is already there, the pool is left exactly as it was, with no second copy —
and the output pool is never consulted.  In all cases, for every
login-harvest result, the account is recorded as failed with the error
reason. -/
theorem spec_c5 :
    (∀ (acct : EmailAccount) (et : Option String) (oracles : StepOracles) (s : RegState)
        (t : String) (rest : List String),
        s.version = vCurrent → s.invite_pool = t :: rest →
        (et = some etRateLimit ∨ et = some etServerError ∨ et = some etOther) →
        ∃ s2, run_batch_step acct (false, [], et) oracles s = .continued s2 ∧
          s2.invite_pool = t :: rest ∧
          dictGet? s2.accounts acct.email = some
            { status := stFailed
              password := acct.password
              invite_code_used := t
              invite_codes_generated := none
              codes_generation_complete := none
              error := some (et.getD etUnknown) }) ∧
    (∀ (acct : EmailAccount) (invLogin emailLogin : List String) (s : RegState)
        (t : String) (rest : List String),
        s.version = vCurrent → s.invite_pool = t :: rest →
        ∃ s2, run_batch_step acct (false, [], some etEmailRegistered)
            { invalidLogin := invLogin, emailLogin := emailLogin } s = .continued s2 ∧
          s2.invite_pool = (if t ∈ rest then rest else t :: rest) ∧
          dictGet? s2.accounts acct.email = some
            { status := stFailed
              password := acct.password
              invite_code_used := t
              invite_codes_generated := none
              codes_generation_complete := none
              error := some etEmailRegistered }) := by
  constructor
  · intro acct et oracles s t rest hv hp het
    have h1 : et ≠ some etInvalid := by
      rcases het with h | h | h <;> rw [h] <;> simp [etRateLimit, etServerError, etOther, etInvalid]
    have h2 : et ≠ some etEmailRegistered := by
      rcases het with h | h | h <;> rw [h] <;>
        simp [etRateLimit, etServerError, etOther, etEmailRegistered]
    have hv2 : ({ s with invite_pool := t :: rest } : RegState).version = vCurrent := hv
    refine ⟨_, run_batch_step_return acct [] et oracles s t rest hp h1 h2, ?_, ?_⟩
    · rw [mark_account_failed_pool_of_mem _ _ _ _ _ (List.mem_cons_self t rest)]
    · rw [mark_account_failed_accounts_v2 { s with invite_pool := t :: rest }
        acct.email acct.password t (et.getD etUnknown) hv2]
      exact dictGet?_insert_self _ _ _
  · intro acct invLogin emailLogin s t rest hv hp
    refine ⟨_, run_batch_step_email acct []
      { invalidLogin := invLogin, emailLogin := emailLogin } s t rest hp, ?_, ?_⟩
    · show (mark_account_failed (handle_email_registered acct.email acct.password t
        emailLogin { s with invite_pool := rest }).2 acct.email acct.password t
        etEmailRegistered).invite_pool = _
      rw [mark_account_failed_pool_of_mem _ _ _ _ _
        (handle_email_registered_pool_mem acct.email acct.password t emailLogin
          { s with invite_pool := rest })]
      have hpe := handle_email_registered_pool_eq acct.email acct.password t emailLogin
        { s with invite_pool := rest }
      simpa using hpe
    · show dictGet? (mark_account_failed (handle_email_registered acct.email acct.password t
        emailLogin { s with invite_pool := rest }).2 acct.email acct.password t
        etEmailRegistered).accounts acct.email = _
      have hv2 : (handle_email_registered acct.email acct.password t emailLogin
          { s with invite_pool := rest }).2.version = vCurrent := by
        rw [handle_email_registered_version_eq]
        exact hv
      rw [mark_account_failed_accounts_v2 _ acct.email acct.password t etEmailRegistered hv2]
      exact dictGet?_insert_self _ _ _

/-- C5 witness: the spec's rate-limit scenario (pool `["AAAA1111","BBBB2222"]`)
discharges the first part, and an email-registered attempt on a token that is
still in the pool, with a non-empty harvest, discharges the second: the pool
keeps a single copy of the token. -/
theorem spec_c5_witness :
    (∃ s2, run_batch_step acct0 (false, [], some etRateLimit) oracles0
        (mkState [tokA, tokB] []) = .continued s2 ∧
      s2.invite_pool = tokA :: [tokB] ∧
      dictGet? s2.accounts acct0.email = some
        { status := stFailed
          password := acct0.password
          invite_code_used := tokA
          invite_codes_generated := none
          codes_generation_complete := none
          error := some ((some etRateLimit).getD etUnknown) }) ∧
    (∃ s2, run_batch_step acct0 (false, [], some etEmailRegistered)
        { invalidLogin := [], emailLogin := [tokB] } (mkState [tokA, tokA] []) =
          .continued s2 ∧
      s2.invite_pool = (if tokA ∈ [tokA] then [tokA] else tokA :: [tokA]) ∧
      dictGet? s2.accounts acct0.email = some
        { status := stFailed
          password := acct0.password
          invite_code_used := tokA
          invite_codes_generated := none
          codes_generation_complete := none
          error := some etEmailRegistered }) :=
  ⟨spec_c5.1 acct0 (some etRateLimit) oracles0 (mkState [tokA, tokB] []) tokA [tokB]
    rfl rfl (Or.inl rfl),
   spec_c5.2 acct0 [] [tokB] (mkState [tokA, tokA] []) tokA [tokA] rfl rfl⟩

/-- C3 counterexample: the invariant held before the step (`crossNoDup` of the
start state), the attempt succeeds with a generated code equal to a token
already sitting in the output pool, and the commit inserts it into the invite
pool without any deduplication — the value ends up in BOTH pools. -/
theorem spec_c3_counterexample :
    crossNoDup (mkState [tokA] [tokB]) ∧
    tokB ∈ (step_state (run_batch_step acct0 (true, [tokB, tokC, tokD], none) oracles0
      (mkState [tokA] [tokB]))).invite_pool ∧
    tokB ∈ (step_state (run_batch_step acct0 (true, [tokB, tokC, tokD], none) oracles0
      (mkState [tokA] [tokB]))).output_codes := by
  refine ⟨?_, by decide, by decide⟩
  simp only [crossNoDup]
  decide

/-- C3 (amended): after the ledger mutation of any FAILED attempt — return of
a token (rate-limit, server error, other), discard-and-backfill of an invalid
code, or the email-already-registered handling — the no-duplicate property
across the two pools is preserved: those insertion paths deduplicate (or
re-insert a token that cannot collide).  The SUCCESS commit, by contrast,
inserts generated codes with no deduplication and can create a cross-pool
duplicate (see the counterexample). -/
theorem spec_c3 (acct : EmailAccount) (oc : List String) (et : Option String)
    (oracles : StepOracles) (s : RegState) (h : crossNoDup s) :
    crossNoDup (step_state (run_batch_step acct (false, oc, et) oracles s)) := by
  cases hp : s.invite_pool with
  | nil =>
    have hstep : run_batch_step acct (false, oc, et) oracles s = .halted s := by
      simp [run_batch_step, pop_token, hp]
    rw [hstep]
    exact h
  | cons t rest =>
    have hsplit : t ∉ rest ++ s.output_codes ∧ (rest ++ s.output_codes).Nodup := by
      have h2 := h
      rw [crossNoDup, hp] at h2
      exact List.nodup_cons.mp (by simpa using h2)
    have hto : t ∉ s.output_codes := fun hm => hsplit.1 (List.mem_append_right rest hm)
    have h0 : crossNoDup { s with invite_pool := rest } := hsplit.2
    by_cases he1 : et = some etInvalid
    · subst he1
      rw [run_batch_step_invalid acct oc oracles s t rest hp]
      by_cases hok : (handle_invalid_invite_code t (some oracles.invalidLogin)
          { s with invite_pool := rest }).1 = true
      · rw [if_pos hok]
        show crossNoDup (mark_account_failed _ acct.email acct.password t etInvalid)
        refine mark_account_failed_nodup _ _ _ _ _
          (handle_invalid_nodup _ _ _ h0) (Or.inl ?_)
        intro hmem
        exact hto (handle_invalid_output_sub t (some oracles.invalidLogin)
          { s with invite_pool := rest } t hmem)
      · rw [if_neg hok]
        exact handle_invalid_nodup _ _ _ h0
    · by_cases he2 : et = some etEmailRegistered
      · subst he2
        rw [run_batch_step_email acct oc oracles s t rest hp]
        show crossNoDup (mark_account_failed _ acct.email acct.password t etEmailRegistered)
        refine mark_account_failed_nodup _ _ _ _ _ ?_ (Or.inr ?_)
        · exact handle_email_registered_nodup _ _ _ _ _ h0 hto
        · exact handle_email_registered_pool_mem _ _ _ _ _
      · rw [run_batch_step_return acct oc et oracles s t rest hp he1 he2]
        show crossNoDup (mark_account_failed { s with invite_pool := t :: rest }
          acct.email acct.password t (et.getD etUnknown))
        refine mark_account_failed_nodup _ _ _ _ _ ?_ (Or.inr (List.mem_cons_self t rest))
        show ((t :: rest) ++ s.output_codes).Nodup
        rw [← hp]
        exact h

/-- C3 witness: a failed (rate-limited) step from a duplicate-free state keeps
the pools duplicate-free. -/
theorem spec_c3_witness :
    crossNoDup (step_state (run_batch_step acct0 (false, [], some etRateLimit) oracles0
      (mkState [tokA] [tokB]))) :=
  spec_c3 acct0 [] (some etRateLimit) oracles0 (mkState [tokA] [tokB])
    (by simp only [crossNoDup]; decide)

/-- C4 counterexample: one `invite_code_invalid` attempt on the sole pooled
token makes the conservation sum DROP from 1 to 0 — the discarded token leaves
both pools and gets no history entry (no disposition `invalid` is ever
written), so the quantity is not non-decreasing and no longer equals the one
token ever introduced. -/
theorem spec_c4_counterexample :
    run_batch_step acct0 (false, [], some etInvalid) oracles0 (mkState [tokA] []) =
      .halted (mkState [] []) ∧
    ledger_sum (mkState [tokA] []) = 1 ∧
    ledger_sum (mkState [] []) = 0 := by
  refine ⟨?_, by decide, by decide⟩
  exact run_batch_step_invalid_break acct0 [] oracles0 (mkState [tokA] []) tokA rfl rfl rfl

/-- C4 (amended): the conservation sum `|replenishment| + |output| +
#(history with disposition consumed/invalid)` is preserved by every
return-of-token failure step, and grows by exactly the number of generated
codes on a success commit of one to three fresh codes — but it is NOT
non-decreasing in general: discarding an invalid token with no available
backfill decreases it by one, the token vanishing from every bucket with no
history disposition recorded. -/
theorem spec_c4 :
    (∀ (acct : EmailAccount) (oc : List String) (et : Option String)
        (oracles : StepOracles) (s : RegState) (t : String) (rest : List String),
        s.invite_pool = t :: rest → et ≠ some etInvalid → et ≠ some etEmailRegistered →
        ledger_sum (step_state (run_batch_step acct (false, oc, et) oracles s)) =
          ledger_sum s) ∧
    (∀ (acct : EmailAccount) (oc : List String) (oracles : StepOracles)
        (s : RegState) (t : String),
        s.invite_pool = [t] → s.output_codes = [] →
        dictGet? s.invite_codes_history t = none →
        ledger_sum (step_state (run_batch_step acct (false, oc, some etInvalid) oracles s))
          + 1 = ledger_sum s) ∧
    (∀ (acct : EmailAccount) (codes : List String) (et : Option String)
        (oracles : StepOracles) (s : RegState) (t : String) (rest : List String),
        s.version = vCurrent → s.invite_pool = t :: rest → t ≠ "" →
        codes ≠ [] → codes.length ≤ 3 → dictGet? s.invite_codes_history t = none →
        ledger_sum (step_state (run_batch_step acct (true, codes, et) oracles s)) =
          ledger_sum s + codes.length) := by
  refine ⟨?_, ?_, ?_⟩
  · intro acct oc et oracles s t rest hp h1 h2
    rw [run_batch_step_return acct oc et oracles s t rest hp h1 h2]
    show ledger_sum (mark_account_failed { s with invite_pool := t :: rest }
      acct.email acct.password t (et.getD etUnknown)) = ledger_sum s
    rw [ledger_sum, ledger_sum,
      mark_account_failed_pool_of_mem _ _ _ _ _ (List.mem_cons_self t rest),
      mark_account_failed_output_eq,
      mark_account_failed_history_of_mem _ _ _ _ _ (List.mem_cons_self t rest), hp]
  · intro acct oc oracles s t hp ho hh
    rw [run_batch_step_invalid_break acct oc oracles s t hp ho hh]
    simp only [step_state, ledger_sum, hp, ho, List.length_nil, List.length_cons]
    omega
  · intro acct codes et oracles s t rest hv hp ht hc h3 hh
    rw [run_batch_step_success acct codes et oracles s t rest hp hc]
    show ledger_sum (success_commit acct t codes { s with invite_pool := rest }) =
      ledger_sum s + codes.length
    have hv2 : ({ s with invite_pool := rest } : RegState).version = vCurrent := hv
    simp only [success_commit,
      mark_account_completed_v2 { s with invite_pool := rest }
        acct.email acct.password t codes hv2 ht]
    rw [ledger_sum, ledger_sum]
    simp only [dictInsert_of_get_none t _ s.invite_codes_history hh]
    have hfilter :
        (List.filter (fun p => p.2.status == stConsumed || p.2.status == stInvalid)
          (s.invite_codes_history ++
            [(t, { used_by := acct.email, status := stConsumed })])).length =
        (List.filter (fun p => p.2.status == stConsumed || p.2.status == stInvalid)
          s.invite_codes_history).length + 1 := by
      rw [List.filter_append]
      simp
    rw [hfilter]
    have hlen : 1 ≤ codes.length := List.length_pos.mpr hc
    simp only [List.length_append, List.length_take, List.length_drop,
      List.length_cons, List.length_nil, hp]
    omega

/-- C4 witness: the return-path conservation at the rate-limit scenario. -/
theorem spec_c4_witness :
    ledger_sum (step_state (run_batch_step acct0 (false, [], some etRateLimit) oracles0
      (mkState [tokA, tokB] []))) = ledger_sum (mkState [tokA, tokB] []) :=
  spec_c4.1 acct0 [] (some etRateLimit) oracles0 (mkState [tokA, tokB] []) tokA [tokB]
    rfl (by decide) (by decide)
